import Mathlib

/-
Verification of the identifier-sanitization and enum-generation pipeline of
GenerateItemsEnum (src/lib/GenerateItemsEnum.ts), shallowly embedded in Lean.
Strings are modelled as Lean strings, JavaScript numbers occurring as item ids
as integers, and the one exception the pipeline can throw as an Except error.
-/

/-- Characters removed by String.prototype.trim in JavaScript: the WhiteSpace
and LineTerminator sets (ASCII whitespace, NBSP, BOM, and the Unicode space
separators). -/
def isJsWhitespace (c : Char) : Bool :=
  decide (c.toNat = 0x09 ∨ c.toNat = 0x0a ∨ c.toNat = 0x0b ∨ c.toNat = 0x0c ∨
    c.toNat = 0x0d ∨ c.toNat = 0x20 ∨ c.toNat = 0xa0 ∨ c.toNat = 0x1680 ∨
    (0x2000 ≤ c.toNat ∧ c.toNat ≤ 0x200a) ∨ c.toNat = 0x2028 ∨
    c.toNat = 0x2029 ∨ c.toNat = 0x202f ∨ c.toNat = 0x205f ∨
    c.toNat = 0x3000 ∨ c.toNat = 0xfeff)

/-- Embedding of `item.name.trim()` on the character list of the string. -/
def jsTrimList (l : List Char) : List Char :=
  ((l.dropWhile isJsWhitespace).reverse.dropWhile isJsWhitespace).reverse

/-- Membership in the character class `[A-Za-z0-9_]` kept by SANITIZE_REGEX
(the regex `[^A-Za-z0-9_]+` matches exactly the characters outside it). -/
def isWordChar (c : Char) : Bool :=
  decide ((65 ≤ c.toNat ∧ c.toNat ≤ 90) ∨ (97 ≤ c.toNat ∧ c.toNat ≤ 122) ∨
    (48 ≤ c.toNat ∧ c.toNat ≤ 57) ∨ c = '_')

/-- Embedding of `.replace(SANITIZE_REGEX, "_")` with
SANITIZE_REGEX = `[^A-Za-z0-9_]+`: a single left-to-right scan; the flag
records whether the previous character was part of an invalid run already
replaced, so each maximal invalid run contributes exactly one underscore. -/
def collapseGo : List Char → Bool → List Char
  | [], _ => []
  | c :: cs, prevInvalid =>
    if isWordChar c then c :: collapseGo cs false
    else if prevInvalid then collapseGo cs true
    else '_' :: collapseGo cs true

/-- Test of `sanitized.charCodeAt(0) >= 48 && sanitized.charCodeAt(0) <= 57`;
on the empty string charCodeAt(0) is NaN and both comparisons are false. -/
def leadingDigit : List Char → Bool
  | [] => false
  | c :: _ => decide (48 ≤ c.toNat ∧ c.toNat ≤ 57)

/-- Embedding of the inline sanitization of buildEnum:
`item.name.trim().replace(regex, "_").toUpperCase()` followed by the
leading-digit underscore prefix. After the regex replacement every character
is in `[A-Za-z0-9_]`, so JavaScript toUpperCase coincides with ASCII
uppercasing. -/
def sanitize (raw : String) : String :=
  let upped := (collapseGo (jsTrimList raw.data) false).map Char.toUpper
  ⟨if leadingDigit upped then '_' :: upped else upped⟩

/-- The INVALID_NAMES set of GenerateItemsEnum. -/
def INVALID_NAMES : List String := ["", "0", "NULL", "NONE", "N"]

/-- The RESERVED_KEYWORDS set of GenerateItemsEnum. -/
def RESERVED_KEYWORDS : List String :=
  ["AUTO", "BREAK", "CASE", "CHAR", "CONST", "CONTINUE", "DEFAULT", "DO",
   "DOUBLE", "ELSE", "ENUM", "EXTERN", "FLOAT", "FOR", "GOTO", "IF", "INT",
   "LONG", "REGISTER", "RETURN", "SHORT", "SIGNED", "SIZEOF", "STATIC",
   "STRUCT", "SWITCH", "TYPEDEF", "UNION", "UNSIGNED", "VOID", "VOLATILE",
   "WHILE",
   "ASM", "BOOL", "CATCH", "CLASS", "CONST_CAST", "DELETE", "DYNAMIC_CAST",
   "EXPLICIT", "EXPORT", "FALSE", "FRIEND", "INLINE", "MUTABLE", "NAMESPACE",
   "NEW", "OPERATOR", "PRIVATE", "PROTECTED", "PUBLIC", "REINTERPRET_CAST",
   "STATIC_CAST", "TEMPLATE", "THIS", "THROW", "TRUE", "TRY", "TYPEID",
   "TYPENAME", "USING", "VIRTUAL", "WCHAR_T",
   "ALIGNAS", "ALIGNOF", "CHAR16_T", "CHAR32_T", "CONSTEXPR", "DECLTYPE",
   "NOEXCEPT", "NULLPTR", "STATIC_ASSERT", "THREAD_LOCAL",
   "CONCEPT", "REQUIRES", "CO_AWAIT", "CO_RETURN", "CO_YIELD",
   "NULL", "DATE", "TIME"]

/-- Decimal digits of a natural number, most significant first, accumulated
onto acc; models how JavaScript stringifies the suffix counter. The first
argument is structural-recursion fuel; a fuel exceeding the value itself
always suffices, since the value shrinks by a factor of ten per step. -/
def natToDecCore : Nat → Nat → List Char → List Char
  | 0, _, acc => acc
  | fuel + 1, n, acc =>
    if n < 10 then Char.ofNat (48 + n % 10) :: acc
    else natToDecCore fuel (n / 10) (Char.ofNat (48 + n % 10) :: acc)

/-- Decimal rendering of a natural number. -/
def natToDec (n : Nat) : String := ⟨natToDecCore (n + 1) n []⟩

/-- Decimal rendering of an integer, as JavaScript template interpolation
renders an integral number. -/
def intToDec (i : Int) : String :=
  if i < 0 then "-" ++ natToDec i.natAbs else natToDec i.toNat

/-- Record of the items array of items.json. -/
structure ItemData where
  item_id : Int
  name : String

/-- Parsed items.json document. -/
structure ItemsFile where
  version : Int
  item_count : Int
  items : List ItemData

/-- State of a GenerateItemsEnum instance: the itemsData field, null until a
load happens. -/
structure GenerateItemsEnum where
  itemsData : Option ItemsFile

/-- Getter itemsVersion: `this.itemsData?.version ?? -1`. -/
def itemsVersion (g : GenerateItemsEnum) : Int :=
  match g.itemsData with
  | some d => d.version
  | none => -1

/-- Getter itemsCount: `this.itemsData?.item_count ?? -1`. -/
def itemsCount (g : GenerateItemsEnum) : Int :=
  match g.itemsData with
  | some d => d.item_count
  | none => -1

/-- The one error buildEnum can throw: items data not loaded. -/
inductive BuildEnumError where
  | notLoaded
deriving DecidableEq

/-- Embedding of `" ".repeat(tabSize)`. -/
def spaces (tabSize : Nat) : String := ⟨List.replicate tabSize ' '⟩

/-- Embedding of the duplicate-name while loop of buildEnum:
`while (usedNames.has(finalName)) # finalName = sanitized_suffix; suffix++`.
The loop examines pairwise distinct candidate names, so a fuel of
`usedNames.length + 1` always suffices to reach a free one (proved below);
the fuel-0 branch is never taken. -/
def resolveLoop (usedNames : List String) (sanitized : String) :
    Nat → String → Nat → String
  | 0, finalName, _ => finalName
  | fuel + 1, finalName, suffix =>
    if finalName ∈ usedNames then
      resolveLoop usedNames sanitized fuel
        (sanitized ++ "_" ++ natToDec suffix) (suffix + 1)
    else finalName

/-- Duplicate resolution for one record: starts from the post-guard candidate
with suffix counter 2. -/
def resolveName (usedNames : List String) (sanitized : String) : String :=
  resolveLoop usedNames sanitized (usedNames.length + 1) sanitized 2

/-- Main loop of buildEnum over the items array, carrying the usedNames set
and emitting one rendered line per surviving record. -/
def buildLoop (indent : String) : List ItemData → List String → List String
  | [], _ => []
  | item :: rest, usedNames =>
    let sanitized := sanitize item.name
    if sanitized ∈ INVALID_NAMES then buildLoop indent rest usedNames
    else
      let guarded :=
        if sanitized ∈ RESERVED_KEYWORDS then sanitized ++ "_" else sanitized
      let finalName := resolveName usedNames guarded
      (indent ++ finalName ++ " = " ++ intToDec item.item_id ++ ",") ::
        buildLoop indent rest (finalName :: usedNames)

/-- Embedding of GenerateItemsEnum.buildEnum. -/
def buildEnum (g : GenerateItemsEnum) (tabSize : Nat := 4) :
    Except BuildEnumError String :=
  match g.itemsData with
  | none => Except.error BuildEnumError.notLoaded
  | some data =>
    let lines := buildLoop (spaces tabSize) data.items []
    Except.ok ("enum eItems \x7b\n" ++ String.intercalate "\n" lines ++
      "\n\x7d;\n")

/-- Post-guard candidate of one record: the sanitized name with the reserved
keyword underscore suffix applied. -/
def guardedCandidate (item : ItemData) : String :=
  let sanitized := sanitize item.name
  if sanitized ∈ RESERVED_KEYWORDS then sanitized ++ "_" else sanitized

/-- Outcome of the loop body for one record against a given used-name set:
none when the record is dropped by the sentinel filter, otherwise the
resolved identifier. -/
def processItem (usedNames : List String) (item : ItemData) : Option String :=
  if sanitize item.name ∈ INVALID_NAMES then none
  else some (resolveName usedNames (guardedCandidate item))

/-- The accepted (identifier, id) pairs produced by a pass of the loop. -/
def enumPairsGo : List ItemData → List String → List (String × Int)
  | [], _ => []
  | item :: rest, usedNames =>
    match processItem usedNames item with
    | none => enumPairsGo rest usedNames
    | some finalName =>
      (finalName, item.item_id) :: enumPairsGo rest (finalName :: usedNames)

/-- The accepted (identifier, id) pairs of a whole catalog. -/
def enumPairs (items : List ItemData) : List (String × Int) :=
  enumPairsGo items []

/-- Rendering of one accepted pair as a text line. -/
def renderLine (indent : String) (p : String × Int) : String :=
  indent ++ p.1 ++ " = " ++ intToDec p.2 ++ ","

/-- The candidate sequence tried by the duplicate-name loop for a base
candidate: the bare candidate, then base_2, base_3, and so on. -/
def cand (base : String) : Nat → String
  | 0 => base
  | k + 1 => base ++ "_" ++ natToDec (k + 2)

/-- Replacement step written from the spec text: every maximal run of
characters outside `[A-Za-z0-9_]` becomes a single underscore; the head of an
invalid run emits the underscore and the rest of the run is skipped. -/
def specReplace : List Char → List Char
  | [] => []
  | c :: cs =>
    if isWordChar c then c :: specReplace cs
    else '_' :: specReplace (cs.dropWhile (fun d => !isWordChar d))
termination_by l => l.length
decreasing_by
  · simp
  · rename_i cs _h
    have h2 : (List.dropWhile (fun d => !isWordChar d) cs).length ≤ cs.length :=
      (List.dropWhile_sublist _).length_le
    simp
    omega

/-- Sanitizer written from the spec text: trim, replace maximal invalid runs
by single underscores, upper-case, and prefix an underscore when the first
character is an ASCII digit. -/
def sanitizeSpec (raw : String) : String :=
  let trimmed := jsTrimList raw.data
  let replaced := specReplace trimmed
  let upped := replaced.map Char.toUpper
  ⟨if leadingDigit upped then '_' :: upped else upped⟩

/-- Digit-list evaluator used to invert decimal rendering. -/
def digitVal (l : List Char) : Nat :=
  l.foldl (fun a c => a * 10 + (c.toNat - 48)) 0

/-- Catalog of the end-to-end example. -/
def c1items : List ItemData :=
  [⟨1, "Health Potion"⟩, ⟨2, "0"⟩, ⟨3, "class"⟩, ⟨4, "Health-Potion"⟩]

/-- Catalog exercising collision resolution against a suffixed name. -/
def c4items : List ItemData :=
  [⟨1, "Potion"⟩, ⟨2, "Potion"⟩, ⟨3, "Potion_2"⟩]

/-- Strings with the same character data are equal. -/
lemma string_data_inj {a b : String} (h : a.data = b.data) : a = b := by
  cases a
  cases b
  exact congrArg String.mk h

/-- Digit characters produced by the decimal renderer decode back to their
digit value. -/
lemma toNat_ofNat_digit (m : Nat) (hm : m < 10) :
    (Char.ofNat (48 + m)).toNat = 48 + m := by
  interval_cases m <;> decide

/-- The renderer output does not depend on the fuel once the fuel exceeds the
value. -/
lemma natToDecCore_fuel :
    ∀ (a b n : Nat) (acc : List Char), n < a → n < b →
      natToDecCore a n acc = natToDecCore b n acc := by
  intro a
  induction a with
  | zero => intro b n acc ha hb; omega
  | succ a ih =>
    intro b n acc ha hb
    cases b with
    | zero => omega
    | succ b =>
      by_cases h : n < 10
      · simp only [natToDecCore]
        rw [if_pos h, if_pos h]
      · simp only [natToDecCore]
        rw [if_neg h, if_neg h]
        exact ih b (n / 10) _ (by omega) (by omega)

/-- The accumulator of natToDecCore is a suffix of its output. -/
lemma natToDecCore_append :
    ∀ (n : Nat) (acc : List Char),
      natToDecCore (n + 1) n acc = natToDecCore (n + 1) n [] ++ acc
  | n, acc => by
    by_cases h : n < 10
    · simp only [natToDecCore]
      rw [if_pos h, if_pos h]
      rfl
    · have h1 : n / 10 < n := Nat.div_lt_self (by omega) (by omega)
      simp only [natToDecCore]
      rw [if_neg h, if_neg h]
      rw [natToDecCore_fuel n (n / 10 + 1) (n / 10)
        (Char.ofNat (48 + n % 10) :: acc) (by omega) (by omega)]
      rw [natToDecCore_fuel n (n / 10 + 1) (n / 10)
        [Char.ofNat (48 + n % 10)] (by omega) (by omega)]
      rw [natToDecCore_append (n / 10) (Char.ofNat (48 + n % 10) :: acc)]
      rw [natToDecCore_append (n / 10) [Char.ofNat (48 + n % 10)]]
      simp
termination_by n _ => n
decreasing_by
  all_goals exact Nat.div_lt_self (by omega) (by omega)

/-- The digit evaluator inverts the decimal renderer. -/
lemma digitVal_natToDecCore :
    ∀ (n : Nat), digitVal (natToDecCore (n + 1) n []) = n
  | n => by
    by_cases h : n < 10
    · simp only [natToDecCore]
      rw [if_pos h]
      unfold digitVal
      simp only [List.foldl_cons, List.foldl_nil]
      rw [toNat_ofNat_digit (n % 10) (by omega)]
      omega
    · have h1 : n / 10 < n := Nat.div_lt_self (by omega) (by omega)
      simp only [natToDecCore]
      rw [if_neg h]
      rw [natToDecCore_fuel n (n / 10 + 1) (n / 10)
        [Char.ofNat (48 + n % 10)] (by omega) (by omega)]
      rw [natToDecCore_append (n / 10) [Char.ofNat (48 + n % 10)]]
      unfold digitVal
      rw [List.foldl_append]
      simp only [List.foldl_cons, List.foldl_nil]
      have hrec := digitVal_natToDecCore (n / 10)
      unfold digitVal at hrec
      rw [hrec, toNat_ofNat_digit (n % 10) (by omega)]
      omega
termination_by n => n
decreasing_by
  exact Nat.div_lt_self (by omega) (by omega)

/-- Decimal rendering of naturals is injective. -/
lemma natToDec_injective {a b : Nat} (h : natToDec a = natToDec b) : a = b := by
  have h2 : natToDecCore (a + 1) a [] = natToDecCore (b + 1) b [] :=
    congrArg String.data h
  have h3 := congrArg digitVal h2
  rwa [digitVal_natToDecCore, digitVal_natToDecCore] at h3

/-- The accumulator is a proper suffix of the renderer output. -/
lemma natToDecCore_length :
    ∀ (n : Nat) (acc : List Char),
      acc.length < (natToDecCore (n + 1) n acc).length
  | n, acc => by
    by_cases h : n < 10
    · simp only [natToDecCore]
      rw [if_pos h]
      simp
    · have h1 : n / 10 < n := Nat.div_lt_self (by omega) (by omega)
      simp only [natToDecCore]
      rw [if_neg h]
      rw [natToDecCore_fuel n (n / 10 + 1) (n / 10)
        (Char.ofNat (48 + n % 10) :: acc) (by omega) (by omega)]
      have h2 := natToDecCore_length (n / 10) (Char.ofNat (48 + n % 10) :: acc)
      simp only [List.length_cons] at h2
      omega
termination_by n _ => n
decreasing_by
  exact Nat.div_lt_self (by omega) (by omega)

/-- The decimal renderer always emits at least one character. -/
lemma natToDec_length_pos (n : Nat) : 0 < (natToDec n).length :=
  natToDecCore_length n []

/-- The candidate sequence for a fixed base never repeats a name. -/
lemma cand_injective (s : String) :
    ∀ a b, cand s a = cand s b → a = b := by
  have hlen : ∀ k, (cand s (k + 1)).length = s.length + 1 + (natToDec (k + 2)).length := by
    intro k
    show ((s ++ "_") ++ natToDec (k + 2)).length = _
    rw [String.length_append, String.length_append]
    have h1 : ("_" : String).length = 1 := rfl
    omega
  have hzero : ∀ k, cand s 0 ≠ cand s (k + 1) := by
    intro k h
    have h1 := congrArg String.length h
    rw [hlen k] at h1
    have h2 := natToDec_length_pos (k + 2)
    have h0 : (cand s 0).length = s.length := rfl
    omega
  intro a b h
  cases a with
  | zero =>
    cases b with
    | zero => rfl
    | succ m => exact absurd h (hzero m)
  | succ k =>
    cases b with
    | zero => exact absurd h.symm (hzero k)
    | succ m =>
      have h1 : (s ++ "_") ++ natToDec (k + 2) = (s ++ "_") ++ natToDec (m + 2) := h
      have h2 := congrArg String.data h1
      rw [String.data_append, String.data_append] at h2
      have h3 := List.append_cancel_left h2
      have h4 := natToDec_injective (string_data_inj h3)
      omega

/-- Pigeonhole step: a used-name set of length n cannot contain all of the
n + 1 pairwise distinct candidates with index at most n. -/
lemma exists_cand_not_mem (used : List String) (s : String) :
    ∃ k, k ≤ used.length ∧ cand s k ∉ used := by
  by_contra hc
  push_neg at hc
  have hinj : Function.Injective (cand s) := fun a b h => cand_injective s a b h
  have hnodup : ((List.range (used.length + 1)).map (cand s)).Nodup :=
    List.Nodup.map hinj (List.nodup_range _)
  have hsub : ((List.range (used.length + 1)).map (cand s)) ⊆ used := by
    intro x hx
    rw [List.mem_map] at hx
    obtain ⟨k, hk, rfl⟩ := hx
    rw [List.mem_range] at hk
    exact hc k (by omega)
  have h1 : ((List.range (used.length + 1)).map (cand s)).toFinset.card =
      used.length + 1 := by
    rw [List.toFinset_card_of_nodup hnodup]
    simp
  have h2 : ((List.range (used.length + 1)).map (cand s)).toFinset ⊆
      used.toFinset := by
    intro x hx
    rw [List.mem_toFinset] at hx ⊢
    exact hsub hx
  have h3 := Finset.card_le_card h2
  have h4 : used.toFinset.card ≤ used.length := List.toFinset_card_le used
  omega

/-- Unfolding of the duplicate-name loop along the candidate sequence: if the
k-th candidate after position j is the first free one and the fuel covers it,
the loop returns it. -/
lemma resolveLoop_spec (used : List String) (s : String) :
    ∀ (k fuel j : Nat), k < fuel → cand s (j + k) ∉ used →
      (∀ i, i < k → cand s (j + i) ∈ used) →
      resolveLoop used s fuel (cand s j) (j + 2) = cand s (j + k) := by
  intro k
  induction k with
  | zero =>
    intro fuel j hfuel hnot _
    cases fuel with
    | zero => omega
    | succ f =>
      have hnot2 : cand s j ∉ used := by simpa using hnot
      rw [resolveLoop, if_neg hnot2]
      simp
  | succ k ih =>
    intro fuel j hfuel hnot hall
    cases fuel with
    | zero => omega
    | succ f =>
      have hj : cand s j ∈ used := by
        have h0 := hall 0 (by omega)
        simpa using h0
      rw [resolveLoop, if_pos hj]
      have e1 : s ++ "_" ++ natToDec (j + 2) = cand s (j + 1) := rfl
      have e2 : j + 2 + 1 = (j + 1) + 2 := by omega
      have e3 : j + (k + 1) = (j + 1) + k := by omega
      rw [e3] at hnot
      rw [e1, e2, e3]
      have hall2 : ∀ i, i < k → cand s ((j + 1) + i) ∈ used := by
        intro i hi
        have h5 := hall (i + 1) (by omega)
        rwa [(by omega : j + (i + 1) = (j + 1) + i)] at h5
      exact ih f (j + 1) (by omega) hnot hall2

/-- Characterization of resolveName: it returns the first candidate in the
sequence base, base_2, base_3, … that is not in the used-name set. -/
lemma resolveName_spec (used : List String) (s : String) :
    ∃ k, cand s k ∉ used ∧ (∀ i, i < k → cand s i ∈ used) ∧
      resolveName used s = cand s k := by
  obtain ⟨k0, hk0, hnot0⟩ := exists_cand_not_mem used s
  have hex : ∃ k, cand s k ∉ used := ⟨k0, hnot0⟩
  refine ⟨Nat.find hex, Nat.find_spec hex, ?_, ?_⟩
  · intro i hi
    have h1 := Nat.find_min hex hi
    exact not_not.mp h1
  · have hle : Nat.find hex ≤ k0 := Nat.find_min' hex hnot0
    have happ := resolveLoop_spec used s (Nat.find hex) (used.length + 1) 0
      (by omega) (by simpa using Nat.find_spec hex)
      (fun i hi => by
        have h1 := Nat.find_min hex hi
        simpa using not_not.mp h1)
    simpa [resolveName] using happ

/-- The name resolveName assigns is never already in the used-name set. -/
lemma resolveName_not_mem (used : List String) (s : String) :
    resolveName used s ∉ used := by
  obtain ⟨k, hk, _, he⟩ := resolveName_spec used s
  rw [he]
  exact hk

/-- A candidate not yet used is kept bare. -/
lemma resolveName_of_not_mem (used : List String) (s : String) :
    s ∉ used → resolveName used s = s := by
  intro hs
  obtain ⟨k, hk, hmin, he⟩ := resolveName_spec used s
  cases k with
  | zero => exact he
  | succ m =>
    exact absurd (show cand s 0 ∈ used from hmin 0 (by omega)) hs

/-- A used candidate receives the first free suffixed name, suffixes counted
from 2. -/
lemma resolveName_of_mem (used : List String) (s : String) :
    s ∈ used → ∃ m, 2 ≤ m ∧ resolveName used s = s ++ "_" ++ natToDec m ∧
      (s ++ "_" ++ natToDec m) ∉ used ∧
      ∀ j, 2 ≤ j → j < m → (s ++ "_" ++ natToDec j) ∈ used := by
  intro hs
  obtain ⟨k, hk, hmin, he⟩ := resolveName_spec used s
  cases k with
  | zero => exact absurd hs hk
  | succ m =>
    refine ⟨m + 2, by omega, he, hk, ?_⟩
    intro j h2 hj
    obtain ⟨i, rfl⟩ : ∃ i, j = i + 2 := ⟨j - 2, by omega⟩
    exact hmin (i + 1) (by omega)

/-- Inside an invalid run the scan just drops characters until the run ends. -/
lemma collapseGo_true (l : List Char) :
    collapseGo l true = collapseGo (l.dropWhile (fun c => !isWordChar c)) false := by
  induction l with
  | nil => rfl
  | cons c cs ih =>
    by_cases h : isWordChar c
    · simp [collapseGo, h, List.dropWhile_cons]
    · simp [collapseGo, h, List.dropWhile_cons, ih]

/-- The single-scan replacement of the implementation computes exactly the
maximal-run replacement described by the spec. -/
lemma collapseGo_eq_specReplace (l : List Char) :
    collapseGo l false = specReplace l := by
  induction l using specReplace.induct with
  | case1 =>
    rw [specReplace]
    rfl
  | case2 c cs h ih =>
    rw [specReplace]
    simp [collapseGo, h, ih]
  | case3 c cs h ih =>
    rw [specReplace]
    simp [collapseGo, h, collapseGo_true, ih]

/-- One step of the pass: dropped records leave the used-name set unchanged
and surviving records push their resolved name. -/
lemma enumPairsGo_cons (item : ItemData) (rest : List ItemData)
    (used : List String) :
    enumPairsGo (item :: rest) used =
      match processItem used item with
      | none => enumPairsGo rest used
      | some finalName =>
        (finalName, item.item_id) :: enumPairsGo rest (finalName :: used) := rfl

/-- A name accepted by processItem is never one already in the used set. -/
lemma processItem_not_mem (used : List String) (item : ItemData)
    (nm : String) (hp : processItem used item = some nm) : nm ∉ used := by
  unfold processItem at hp
  by_cases hi : sanitize item.name ∈ INVALID_NAMES
  · rw [if_pos hi] at hp
    cases hp
  · rw [if_neg hi] at hp
    have h2 := Option.some.inj hp
    rw [← h2]
    exact resolveName_not_mem used (guardedCandidate item)

/-- Invariant of the whole pass: the emitted identifiers are pairwise distinct
and none of them was in the incoming used-name set. -/
lemma enumPairsGo_nodup (items : List ItemData) :
    ∀ used : List String,
      ((enumPairsGo items used).map Prod.fst).Nodup ∧
      ∀ n, n ∈ (enumPairsGo items used).map Prod.fst → n ∉ used := by
  induction items with
  | nil => intro used; simp [enumPairsGo]
  | cons item rest ih =>
    intro used
    rw [enumPairsGo_cons]
    cases hp : processItem used item with
    | none =>
      simp only []
      exact ih used
    | some nm =>
      simp only [List.map_cons, List.nodup_cons, List.mem_cons]
      have hnm : nm ∉ used := processItem_not_mem used item nm hp
      obtain ⟨ihn, ihm⟩ := ih (nm :: used)
      refine ⟨⟨?_, ihn⟩, ?_⟩
      · intro hmem
        exact (ihm nm hmem) (List.mem_cons_self nm used)
      · intro n hn
        cases hn with
        | inl h => rw [h]; exact hnm
        | inr h =>
          intro hu
          exact (ihm n h) (List.mem_cons_of_mem nm hu)

/-- The loop of buildEnum renders exactly the accepted pairs of the pass, in
order. -/
lemma buildLoop_eq_render (indent : String) (items : List ItemData) :
    ∀ used : List String,
      buildLoop indent items used =
        (enumPairsGo items used).map (renderLine indent) := by
  induction items with
  | nil => intro used; rfl
  | cons item rest ih =>
    intro used
    rw [buildLoop, enumPairsGo_cons]
    by_cases hi : sanitize item.name ∈ INVALID_NAMES
    · rw [if_pos hi]
      have hp : processItem used item = none := by
        unfold processItem
        rw [if_pos hi]
      rw [hp]
      exact ih used
    · rw [if_neg hi]
      have hp : processItem used item =
          some (resolveName used (guardedCandidate item)) := by
        unfold processItem
        rw [if_neg hi]
      rw [hp]
      simp only [List.map_cons]
      rw [ih]
      rfl

/-- Records dropped by the sentinel filter contribute nothing to the pass:
filtering them out of the catalog leaves the loop output unchanged. -/
lemma buildLoop_filter_invalid (indent : String) (items : List ItemData) :
    ∀ used : List String,
      buildLoop indent
        (items.filter (fun it => decide (sanitize it.name ∉ INVALID_NAMES)))
        used = buildLoop indent items used := by
  induction items with
  | nil => intro used; rfl
  | cons item rest ih =>
    intro used
    by_cases hi : sanitize item.name ∈ INVALID_NAMES
    · rw [List.filter_cons_of_neg (by simpa using hi)]
      rw [ih used]
      conv_rhs => rw [buildLoop]
      rw [if_pos hi]
    · rw [List.filter_cons_of_pos (by simpa using hi)]
      rw [buildLoop]
      conv_rhs => rw [buildLoop]
      rw [if_neg hi, if_neg hi]
      simp only [ih]

/-- Unfolding of guardedCandidate without the intermediate binding. -/
lemma guardedCandidate_eq (item : ItemData) :
    guardedCandidate item =
      if sanitize item.name ∈ RESERVED_KEYWORDS then sanitize item.name ++ "_"
      else sanitize item.name := rfl

/-- Unfolding of processItem. -/
lemma processItem_eq (used : List String) (item : ItemData) :
    processItem used item =
      if sanitize item.name ∈ INVALID_NAMES then none
      else some (resolveName used (guardedCandidate item)) := rfl

/-- C1: the spec's end-to-end example claims that the four-record catalog
with names Health Potion, 0, class, Health-Potion and indent 4 renders with
the id-2 record dropped. The code prefixes the leading-digit underscore
before the sentinel filter, so the name 0 becomes _0, escapes INVALID_NAMES,
and is emitted; the claimed output string is not what buildEnum returns. -/
theorem c1_counterexample :
    buildEnum ⟨some ⟨1, 4, c1items⟩⟩ 4 ≠
      Except.ok ("enum eItems \x7b\n    HEALTH_POTION = 1,\n    CLASS_ = 3,\n    HEALTH_POTION_2 = 4,\n\x7d;\n") := by
  intro h
  have e : buildEnum ⟨some ⟨1, 4, c1items⟩⟩ 4 =
      Except.ok ("enum eItems \x7b\n    HEALTH_POTION = 1,\n    _0 = 2,\n    CLASS_ = 3,\n    HEALTH_POTION_2 = 4,\n\x7d;\n") := rfl
  rw [e] at h
  have h2 := Except.ok.inj h
  exact absurd h2 (by decide)

/-- C1 (amended): on the example catalog with default indent 4, buildEnum
returns the claimed string except that the record with id 2 is not dropped:
its name 0 is digit-prefixed to _0 before the sentinel filter runs, so it
contributes the line `    _0 = 2,`. The catalog metadata is irrelevant. -/
theorem c1_amended (v c : Int) :
    buildEnum ⟨some ⟨v, c, c1items⟩⟩ 4 =
      Except.ok ("enum eItems \x7b\n    HEALTH_POTION = 1,\n    _0 = 2,\n    CLASS_ = 3,\n    HEALTH_POTION_2 = 4,\n\x7d;\n") := rfl

/-- C2: a record whose rawName sanitizes to a sentinel string of
INVALID_NAMES is dropped entirely: its loop step yields no name and leaves
the used-name set untouched, and removing all such records from a catalog
leaves the output of buildEnum byte-identical. -/
theorem c2_sentinel_drop :
    (∀ (used : List String) (item : ItemData),
      sanitize item.name ∈ INVALID_NAMES → processItem used item = none) ∧
    ∀ (d : ItemsFile) (w : Nat),
      buildEnum ⟨some ⟨d.version, d.item_count,
        d.items.filter (fun it => decide (sanitize it.name ∉ INVALID_NAMES))⟩⟩
        w = buildEnum ⟨some d⟩ w := by
  constructor
  · intro used item hi
    rw [processItem_eq, if_pos hi]
  · intro d w
    show Except.ok _ = Except.ok _
    rw [buildLoop_filter_invalid]

/-- C2 witness: a record named null sanitizes to NULL and is dropped. -/
theorem c2_sentinel_drop_witness :
    processItem [] (⟨5, "null"⟩ : ItemData) = none ∧
    buildEnum ⟨some ⟨1, 1,
      ([⟨5, "null"⟩] : List ItemData).filter
        (fun it => decide (sanitize it.name ∉ INVALID_NAMES))⟩⟩ 3 =
    buildEnum ⟨some ⟨1, 1, [⟨5, "null"⟩]⟩⟩ 3 :=
  ⟨c2_sentinel_drop.1 [] ⟨5, "null"⟩ (by decide),
   c2_sentinel_drop.2 ⟨1, 1, [⟨5, "null"⟩]⟩ 3⟩

/-- C3: for every catalog the identifiers of the emitted pairs (rendered
one-to-one into the emitted lines, see the C7 theorem) are pairwise
distinct. -/
theorem c3_unique_identifiers (items : List ItemData) :
    ((enumPairs items).map Prod.fst).Nodup :=
  (enumPairsGo_nodup items []).1

/-- C4: the claim that the earliest record with a given post-guard candidate
always keeps the bare candidate is false: in the catalog Potion, Potion,
Potion_2 the third record is the only one whose candidate is POTION_2, yet
the collision resolution of the second record already claimed POTION_2, so
the third is renamed POTION_2_2. -/
theorem c4_counterexample :
    guardedCandidate (⟨3, "Potion_2"⟩ : ItemData) = "POTION_2" ∧
    guardedCandidate (⟨1, "Potion"⟩ : ItemData) ≠ "POTION_2" ∧
    guardedCandidate (⟨2, "Potion"⟩ : ItemData) ≠ "POTION_2" ∧
    enumPairs c4items =
      [("POTION", 1), ("POTION_2", 2), ("POTION_2_2", 3)] := by
  refine ⟨rfl, ?_, ?_, rfl⟩ <;> decide

/-- C4 (amended): records are processed in catalog order against one shared
used-name set; a record whose post-guard candidate is not yet used keeps the
bare candidate, and a record whose candidate is already used receives the
first name candidate_m, m = 2, 3, 4, … in increasing order (appended to the
original pre-collision candidate, no _1 variant), that is not in the used
set. -/
theorem c4_amended (used : List String) (s : String) :
    (s ∉ used → resolveName used s = s) ∧
    (s ∈ used → ∃ m, 2 ≤ m ∧ resolveName used s = s ++ "_" ++ natToDec m ∧
      (s ++ "_" ++ natToDec m) ∉ used ∧
      ∀ j, 2 ≤ j → j < m → (s ++ "_" ++ natToDec j) ∈ used) :=
  ⟨resolveName_of_not_mem used s, resolveName_of_mem used s⟩

/-- C4 witness: with used set containing A, candidate B stays bare and
candidate A is suffixed. -/
theorem c4_amended_witness :
    resolveName ["A"] "B" = "B" ∧
    (∃ m, 2 ≤ m ∧ resolveName ["A"] "A" = "A" ++ "_" ++ natToDec m ∧
      ("A" ++ "_" ++ natToDec m) ∉ (["A"] : List String) ∧
      ∀ j, 2 ≤ j → j < m → ("A" ++ "_" ++ natToDec j) ∈ (["A"] : List String)) :=
  ⟨(c4_amended ["A"] "B").1 (by decide),
   (c4_amended ["A"] "A").2 (by decide)⟩

/-- C5: the implemented sanitizer equals the spec's description — trim,
collapse each maximal run of characters outside A-Za-z0-9_ to one
underscore, upper-case, underscore-prefix a leading ASCII digit — and the
raw name 9mm sanitizes to _9MM. -/
theorem c5_sanitizer :
    (∀ raw : String, sanitize raw = sanitizeSpec raw) ∧
    sanitize ("9mm") = "_9MM" := by
  constructor
  · intro raw
    unfold sanitize sanitizeSpec
    rw [collapseGo_eq_specReplace]
  · rfl

/-- C6: after the sentinel filter, a candidate in RESERVED_KEYWORDS gets
exactly one trailing underscore and any other candidate is unchanged, both
then flowing into collision resolution; a record sanitizing to FOR is
emitted as FOR_ when FOR_ is free, and end to end a record named
`  For ` with id 7 renders as the line `    FOR_ = 7,`. -/
theorem c6_keyword_guard :
    (∀ (used : List String) (item : ItemData),
      (sanitize item.name ∉ INVALID_NAMES →
        sanitize item.name ∈ RESERVED_KEYWORDS →
        processItem used item =
          some (resolveName used (sanitize item.name ++ "_"))) ∧
      (sanitize item.name ∉ INVALID_NAMES →
        sanitize item.name ∉ RESERVED_KEYWORDS →
        processItem used item =
          some (resolveName used (sanitize item.name))) ∧
      (sanitize item.name = "FOR" → ("FOR_" : String) ∉ used →
        processItem used item = some ("FOR_"))) ∧
    buildEnum ⟨some ⟨1, 1, [⟨7, "  For "⟩]⟩⟩ 4 =
      Except.ok ("enum eItems \x7b\n    FOR_ = 7,\n\x7d;\n") := by
  constructor
  · intro used item
    refine ⟨?_, ?_, ?_⟩
    · intro hi hr
      rw [processItem_eq, if_neg hi, guardedCandidate_eq, if_pos hr]
    · intro hi hr
      rw [processItem_eq, if_neg hi, guardedCandidate_eq, if_neg hr]
    · intro hs hu
      have hi : sanitize item.name ∉ INVALID_NAMES := by
        rw [hs]
        decide
      have hr : sanitize item.name ∈ RESERVED_KEYWORDS := by
        rw [hs]
        decide
      rw [processItem_eq, if_neg hi, guardedCandidate_eq, if_pos hr, hs]
      have h2 : ("FOR" ++ "_" : String) = "FOR_" := rfl
      rw [h2, resolveName_of_not_mem used ("FOR_") hu]
  · rfl

/-- C6 witness: the record named For with id 7 against an empty used set is
accepted with identifier FOR_. -/
theorem c6_keyword_guard_witness :
    processItem [] (⟨7, "For"⟩ : ItemData) = some ("FOR_") :=
  (c6_keyword_guard.1 [] ⟨7, "For"⟩).2.2 (by decide) (by decide)

/-- C7: for every catalogและ every indent width, buildEnum returns the fixed
template wrapping one rendered line per accepted pair, in catalog order,
each line being the indent, the identifier, a ` = ` separator, the decimal
id and a trailing comma, joined by newlines; width 0 yields no indent. -/
theorem c7_renderer (d : ItemsFile) (w : Nat) :
    buildEnum ⟨some d⟩ w =
      Except.ok ("enum eItems \x7b\n" ++
        String.intercalate "\n"
          ((enumPairs d.items).map
            (fun p => spaces w ++ p.1 ++ " = " ++ intToDec p.2 ++ ",")) ++
        "\n\x7d;\n") ∧
    spaces 0 = "" := by
  constructor
  · have h := buildLoop_eq_render (spaces w) d.items []
    show Except.ok ("enum eItems \x7b\n" ++
      String.intercalate "\n" (buildLoop (spaces w) d.items []) ++
      "\n\x7d;\n") = _
    rw [h]
    rfl
  · rfl

/-- C8: buildEnum fails exactly when no catalog is loaded, with the
notLoaded error (the only error the pipeline can produce), and succeeds on
every loaded catalog. -/
theorem c8_not_loaded (g : GenerateItemsEnum) (w : Nat) :
    (buildEnum g w = Except.error BuildEnumError.notLoaded ↔
      g.itemsData = none) ∧
    ∀ d, g.itemsData = some d → ∃ s, buildEnum g w = Except.ok s := by
  obtain ⟨data⟩ := g
  cases data with
  | none => exact ⟨⟨fun _ => rfl, fun _ => rfl⟩, fun _ hd => Option.noConfusion hd⟩
  | some _d =>
    exact ⟨⟨fun h => Except.noConfusion h, fun h => Option.noConfusion h⟩,
      fun d2 _ => ⟨_, rfl⟩⟩

/-- C8 witness: the unloaded state errors with notLoaded and a loaded empty
catalog succeeds. -/
theorem c8_not_loaded_witness :
    buildEnum ⟨none⟩ 4 = Except.error BuildEnumError.notLoaded ∧
    ∃ s, buildEnum ⟨some ⟨1, 0, []⟩⟩ 2 = Except.ok s :=
  ⟨(c8_not_loaded ⟨none⟩ 4).1.mpr rfl,
   (c8_not_loaded ⟨some ⟨1, 0, []⟩⟩ 2).2 ⟨1, 0, []⟩ rfl⟩

/-- C9: the pipeline is total on loaded catalogs: buildEnum always returns a
string, and each record's loop step has a defined outcome, either a silent
drop or an accepted name. -/
theorem c9_total (d : ItemsFile) (w : Nat) :
    (∃ s, buildEnum ⟨some d⟩ w = Except.ok s) ∧
    ∀ (used : List String) (item : ItemData),
      processItem used item = none ∨
      ∃ nm, processItem used item = some nm := by
  refine ⟨⟨_, rfl⟩, ?_⟩
  intro used item
  cases h : processItem used item with
  | none => exact Or.inl rfl
  | some nm => exact Or.inr ⟨nm, rfl⟩

/-- C10: before a load the accessors return the sentinel -1 instead of
failing; after a load they return the catalog's declared version and count. -/
theorem c10_accessors :
    itemsVersion ⟨none⟩ = -1 ∧ itemsCount ⟨none⟩ = -1 ∧
    ∀ d : ItemsFile, itemsVersion ⟨some d⟩ = d.version ∧
      itemsCount ⟨some d⟩ = d.item_count :=
  ⟨rfl, rfl, fun d => ⟨rfl, rfl⟩⟩
